import Mathlib

/-!
# Verification of the CORS-Scanner probe and bulk-scan logic

Shallow embedding of `main.go` of the CORS scanner: the single-URL probe
`testCORS`, the URL filter used by `testBulkCORS`, the console summary
`printSummary`, and a small transition system modelling the goroutine /
semaphore-channel / mutex structure of the bulk scanner.

External collaborators (Go standard library: `net/url.Parse`,
`net/http.NewRequest`, the HTTP client) are modelled explicitly: URL parsing
is an executable simplification of `net/url.Parse` covering scheme and host
extraction, and the network is an oracle (`NetEnv`) supplying the outcome of
the single `client.Do` call and the current time.
-/

/-- The scheme and host of a parsed URL, the two fields of Go
`net/url.URL` that `main.go` reads. -/
structure ParsedURL where
  scheme : String
  host : String
deriving Repr, DecidableEq

/-- `Config` from main.go lines 26-31.  The timeout is kept in seconds; the
`Headers` map is an association list. -/
structure Config where
  Method : String
  Headers : List (String × String)
  TimeoutSecs : Nat
  Concurrency : Nat
deriving Repr, DecidableEq

/-- `CORSTestResult` from main.go lines 16-24.  The `Headers` map is an
association list; an absent `Error` is the empty string, as in Go. -/
structure CORSTestResult where
  URL : String
  StatusCode : Nat
  Headers : List (String × String)
  Error : String
  HasCORS : Bool
  CORSHeaders : List String
  Timestamp : String
deriving Repr, DecidableEq

/-- The parts of a Go `http.Response` that testCORS reads: the numeric
status code and the header map (each name mapped to its list of values). -/
structure HTTPResponse where
  StatusCode : Nat
  Header : List (String × List String)
deriving Repr, DecidableEq

/-- Outcome of the single `client.Do(req)` call: a transport-level failure
with a message, or a response. -/
inductive DoResult where
  | failure (msg : String)
  | success (resp : HTTPResponse)
deriving Repr, DecidableEq

/-- The ambient effects consumed by one testCORS call: the network oracle
for `client.Do` and the value of `time.Now().Format(time.RFC3339)`. -/
structure NetEnv where
  doResult : DoResult
  now : String
deriving Repr, DecidableEq

/-- The parts of a Go `http.Request` that matter here: method, raw URL and
the header map written through `req.Header.Set`. -/
structure Request where
  Method : String
  URLString : String
  Header : List (String × String)
deriving Repr, DecidableEq

/-- Insert-or-replace on an association list: Go map assignment
`m[k] = v`, and also `http.Header.Set` for the already-canonical keys used
here. -/
def mapInsert (m : List (String × String)) (k v : String) : List (String × String) :=
  match m with
  | [] => [(k, v)]
  | (k₀, v₀) :: rest => if k₀ = k then (k, v) :: rest else (k₀, v₀) :: mapInsert rest k v

/-- Lookup on an association list (Go map read `m[k]`). -/
def mapLookup (m : List (String × String)) (k : String) : Option String :=
  match m with
  | [] => none
  | (k₀, v₀) :: rest => if k₀ = k then some v₀ else mapLookup rest k

/-- Whether the first character list starts the second. -/
def startsWithChars : List Char → List Char → Bool
  | [], _ => true
  | _ :: _, [] => false
  | a :: as, b :: bs => a == b && startsWithChars as bs

/-- Whether the first character list occurs contiguously in the second. -/
def occursIn (sub : List Char) : List Char → Bool
  | [] => sub.isEmpty
  | c :: rest => startsWithChars sub (c :: rest) || occursIn sub rest

/-- Go `strings.Contains s sub`: sub occurs as a contiguous substring of s. -/
def strContains (s sub : String) : Bool :=
  occursIn sub.toList s.toList

/-- Go `strings.ToLower` restricted to the ASCII lowering `Char.toLower`
(all header names involved are ASCII). -/
def strToLower (s : String) : String :=
  String.mk (s.toList.map Char.toLower)

/-- The fixed substring list of `isCORSHeader`, main.go lines 257-266. -/
def corsHeaderNames : List String :=
  ["access-control-allow-origin",
   "access-control-allow-methods",
   "access-control-allow-headers",
   "access-control-allow-credentials",
   "access-control-expose-headers",
   "access-control-max-age"]

/-- `isCORSHeader` from main.go lines 257-273: true when the (already
lowercased) header name contains one of the six fixed substrings. -/
def isCORSHeader (header : String) : Bool :=
  corsHeaderNames.any fun corsHeader => strContains header corsHeader

/-- One iteration of the response-header loop of testCORS, main.go lines
130-139: store the comma-space joined value under the original key, and on a
CORS name set the flag and append the original (non-lowercased) key. -/
def processHeader (result : CORSTestResult) (kv : String × List String) : CORSTestResult :=
  let headerValue := String.intercalate ", " kv.2
  let result := { result with Headers := mapInsert result.Headers kv.1 headerValue }
  if isCORSHeader (strToLower kv.1) then
    { result with HasCORS := true, CORSHeaders := result.CORSHeaders ++ [kv.1] }
  else
    result

/-- Scheme scanner of Go `net/url.Parse` (getScheme): a scheme is a leading
letter followed by letters, digits, `+`, `-` or `.`, terminated by a colon.
A colon before any scheme character is a parse error (`none`); any other
shape means the string has no scheme and is returned whole. -/
def schemeLoop (orig : List Char) : List Char → List Char → Option (String × List Char)
  | [], _ => some ("", orig)
  | c :: rest, acc =>
    if c.isAlpha then
      schemeLoop orig rest (acc ++ [c])
    else if c.isDigit || c = '+' || c = '-' || c = '.' then
      if acc = [] then some ("", orig) else schemeLoop orig rest (acc ++ [c])
    else if c = ':' then
      if acc = [] then none else some (String.mk (acc.map Char.toLower), rest)
    else
      some ("", orig)

/-- Characters that end the authority (host) component. -/
def hostChar (c : Char) : Bool :=
  !(c == '/' || c == '?' || c == '#')

/-- Modelled from Go `net/url.Parse` (standard library, not part of this
repository): rejects control characters, splits off a scheme per
`schemeLoop`, and when the remainder starts with `//` takes the authority up
to the next `/`, `?` or `#` as the host.  Userinfo/port splitting and
percent-escape validation are elided; the model keeps the behaviour
`main.go` depends on: which strings yield a non-empty scheme and host. -/
def urlParse (s : String) : Option ParsedURL :=
  if s.toList.any (fun c => decide (c.toNat < 32) || c.toNat == 127) then none
  else
    match schemeLoop s.toList s.toList [] with
    | none => none
    | some (scheme, rest) =>
      let host :=
        match rest with
        | '/' :: '/' :: tail => String.mk (tail.takeWhile hostChar)
        | _ => ""
      some { scheme := scheme, host := host }

/-- `isValidURL` from main.go lines 275-278: parse succeeds and both scheme
and host are non-empty. -/
def isValidURL (urlStr : String) : Bool :=
  match urlParse urlStr with
  | none => false
  | some parsed => parsed.scheme != "" && parsed.host != ""

/-- Modelled from Go `net/http.NewRequest` (standard library): fails exactly
when the URL does not parse, with an error mentioning the parse; method
validation is elided (the scanner passes the method string through
unchecked, and the claims under study never exercise an invalid method). -/
def newRequest (method urlStr : String) : Except String Request :=
  match urlParse urlStr with
  | none => Except.error ("parse " ++ urlStr ++ ": invalid URL")
  | some _ => Except.ok { Method := method, URLString := urlStr, Header := [] }

/-- The probe together with the request it put on the wire (`none` when
`client.Do` was never reached). -/
structure ProbeTrace where
  result : CORSTestResult
  sentRequest : Option Request
deriving Repr, DecidableEq

/-- `testCORS` from main.go lines 93-142, instrumented with the request
actually handed to `client.Do`.  Mirrors the source line by line: initialise
the result, build the request (early return on failure), set the fixed
config headers, overwrite Origin with the spoofed value when the URL
re-parses, perform the call, and on a response record status and fold the
header loop. -/
def testCORSTrace (targetURL : String) (config : Config) (env : NetEnv) : ProbeTrace :=
  let result : CORSTestResult :=
    { URL := targetURL, StatusCode := 0, Headers := [], Error := "",
      HasCORS := false, CORSHeaders := [], Timestamp := env.now }
  match newRequest config.Method targetURL with
  | Except.error e =>
    { result := { result with Error := "Error creating request: " ++ e }, sentRequest := none }
  | Except.ok req =>
    let req := config.Headers.foldl (fun r kv => { r with Header := mapInsert r.Header kv.1 kv.2 }) req
    let req :=
      match urlParse targetURL with
      | some parsedURL =>
        let origin := parsedURL.scheme ++ "://" ++ parsedURL.host
        { req with Header := mapInsert req.Header "Origin" (origin ++ "-test.cors.com") }
      | none => req
    match env.doResult with
    | DoResult.failure msg =>
      { result := { result with Error := "Request failed: " ++ msg }, sentRequest := some req }
    | DoResult.success resp =>
      let result := { result with StatusCode := resp.StatusCode }
      { result := resp.Header.foldl processHeader result, sentRequest := some req }

/-- `testCORS` as the caller sees it: just the result record. -/
def testCORS (targetURL : String) (config : Config) (env : NetEnv) : CORSTestResult :=
  (testCORSTrace targetURL config env).result

/-- ASCII whitespace trimmed by Go `strings.TrimSpace` on the inputs in
scope (space, tab, newline, carriage return). -/
def isSpaceChar (c : Char) : Bool :=
  c == ' ' || c == '\t' || c == '\n' || c == '\r'

/-- Go `strings.TrimSpace`: drop leading and trailing whitespace. -/
def trimSpace (s : String) : String :=
  String.mk (((s.toList.dropWhile isSpaceChar).reverse.dropWhile isSpaceChar).reverse)

/-- One iteration of the scanner loop of testBulkCORS, main.go lines
151-158: trim the line; keep it exactly when it is non-empty and
`isValidURL` holds. -/
def schedLine (line : String) : Option String :=
  let url := trimSpace line
  if url != "" && isValidURL url then some url else none

/-- The list of URLs testBulkCORS collects from the file lines before
spawning workers. -/
def collectURLs (lines : List String) : List String :=
  lines.filterMap schedLine

/-- Observable outcome of the control flow of testBulkCORS (main.go lines
144-189) composed with the subsequent `saveResults` call in `main`:
either `log.Fatal` fires (recorded in `fatalError`) before any worker is
spawned and before any report is written, or the collected URLs are
scheduled and the report is written after the scan. -/
structure BulkRunOutcome where
  fatalError : Option String
  scheduled : List String
  reportWritten : Bool
deriving Repr, DecidableEq

/-- Control-flow skeleton of the bulk path of `main`: collect URLs, die
fatally on an empty collection (main.go line 165), otherwise scan all
collected URLs and then write the report. -/
def bulkRunControl (lines : List String) : BulkRunOutcome :=
  let urls := collectURLs lines
  if urls.isEmpty then
    { fatalError := some "No valid URLs found in file", scheduled := [], reportWritten := false }
  else
    { fatalError := none, scheduled := urls, reportWritten := true }

/-- What `printSummary` (main.go lines 231-255) prints: the three counters
and the success rate, with a flag recording whether the rate came from the
division branch (`total > 0`) or from the literal zero branch.  The Go
float64 arithmetic is modelled exactly over the rationals. -/
structure Summary where
  total : Nat
  successful : Nat
  withCORS : Nat
  successRate : Rat
  divisionPerformed : Bool
deriving Repr, DecidableEq

/-- One iteration of the counting loop of printSummary (main.go lines
236-243): increment `successful` on an empty error, `withCORS` on the
flag. -/
def summaryStep (p : Nat × Nat) (r : CORSTestResult) : Nat × Nat :=
  ((if r.Error == "" then p.1 + 1 else p.1), (if r.HasCORS then p.2 + 1 else p.2))

/-- `printSummary` from main.go lines 231-255: one pass over the results
counting, then the guarded rate computation. -/
def printSummary (results : List CORSTestResult) : Summary :=
  let total := results.length
  let counts := results.foldl summaryStep ((0 : Nat), (0 : Nat))
  if total > 0 then
    { total := total, successful := counts.1, withCORS := counts.2,
      successRate := (counts.1 : Rat) / (total : Rat) * 100, divisionPerformed := true }
  else
    { total := total, successful := counts.1, withCORS := counts.2,
      successRate := 0, divisionPerformed := false }

/-- `Config` as `main` builds it (main.go lines 58-65): the flag values are
copied through unchanged and the fixed User-Agent header is installed. -/
def buildConfig (method : String) (timeoutSecs concurrency : Nat) : Config :=
  { Method := method,
    TimeoutSecs := timeoutSecs,
    Concurrency := concurrency,
    Headers := [("User-Agent", "CORS-Testing-Tool/1.0")] }

/-!
## The worker pool of testBulkCORS

main.go lines 168-188 spawn one goroutine per collected URL.  Each worker
sends on the semaphore channel (capacity `config.Concurrency`) to acquire a
slot, runs `testCORS`, appends its result under the mutex, and releases the
slot; `wg.Wait()` blocks the caller until every worker has finished.  The
transition system below has one `acquire` step (enabled while fewer than
`cap` workers hold a slot) and one `finish` step (the slot-holding worker
runs its probe, appends its index to the log, and releases).  The append
happens before the deferred release and both happen before `wg.Done()`, so
folding them into one atomic `finish` preserves exactly the observable
facts claimed: slot occupancy during the network call, and the membership
and ordering of the result list at return time.
-/

/-- Phase of one worker goroutine: spawned but waiting on the semaphore,
holding a slot (its network call may be in flight), or finished (result
appended, slot released, `wg.Done` executed). -/
inductive WPhase where
  | waiting
  | active
  | finished
deriving Repr, DecidableEq

/-- Whether a phase is the slot-holding phase. -/
def isActive : WPhase → Bool
  | WPhase.active => true
  | _ => false

/-- State of the bulk scan: the phase of each of the `n` workers (worker
`i` probes the i-th collected URL) and the append log: the worker indices
in the order their results were appended to `results`. -/
structure BulkState where
  phases : List WPhase
  log : List Nat
deriving Repr, DecidableEq

/-- Number of workers currently holding a semaphore slot: the fill level
of the semaphore channel. -/
def countActive (ps : List WPhase) : Nat :=
  (ps.filter isActive).length

/-- Initial state: every worker spawned and waiting, nothing appended. -/
def bulkInit (n : Nat) : BulkState :=
  { phases := List.replicate n WPhase.waiting, log := [] }

/-- One scheduler step of the pool under semaphore capacity `cap`:
`acquire` models a waiting worker completing its send on the semaphore
channel (only enabled while the channel holds fewer than `cap` tokens);
`finish` models a slot-holding worker completing its probe, appending its
result under the mutex and releasing the slot. -/
inductive BulkStep (cap : Nat) : BulkState → BulkState → Prop
  | acquire (s : BulkState) (i : Nat)
      (hw : s.phases[i]? = some WPhase.waiting)
      (hcap : countActive s.phases < cap) :
      BulkStep cap s { phases := s.phases.set i WPhase.active, log := s.log }
  | finish (s : BulkState) (i : Nat)
      (ha : s.phases[i]? = some WPhase.active) :
      BulkStep cap s { phases := s.phases.set i WPhase.finished, log := s.log ++ [i] }

/-- States reachable by the pool of `n` workers under capacity `cap`. -/
inductive BulkReachable (cap n : Nat) : BulkState → Prop
  | init : BulkReachable cap n (bulkInit n)
  | step {s t : BulkState} : BulkReachable cap n s → BulkStep cap s t → BulkReachable cap n t

/-- The state in which `wg.Wait()` unblocks and testBulkCORS returns:
every worker has finished. -/
def Terminal (n : Nat) (s : BulkState) : Prop :=
  s.phases = List.replicate n WPhase.finished

/-- The `results` slice at a given state: the probe result of each logged
worker, in append order. -/
def bulkResults (prober : Nat → CORSTestResult) (s : BulkState) : List CORSTestResult :=
  s.log.map prober

/-- The probe a bulk-scan worker runs: `testCORS` on its collected URL,
with `envs i` the network oracle of the i-th request. -/
def bulkProber (lines : List String) (config : Config) (envs : Nat → NetEnv) (i : Nat) :
    CORSTestResult :=
  testCORS ((collectURLs lines).getD i "") config (envs i)

/-- Storing one response header in the result map: the comma-space join of
its values under its original name. -/
def insHeader (m : List (String × String)) (kv : String × List String) : List (String × String) :=
  mapInsert m kv.1 (String.intercalate ", " kv.2)

example : isValidURL "http://example.com" = true := by decide
example : isValidURL "notaurl" = false := by decide
example : isValidURL "http://" = false := by decide
example : urlParse "http://example.com/a?b" = some { scheme := "http", host := "example.com" } := by decide
example : isCORSHeader "access-control-allow-origin" = true := by decide
example : isCORSHeader "x-access-control-allow-origin-extra" = true := by decide
example : isCORSHeader "content-type" = false := by decide

/-! ## Concrete instances used to exercise the theorems -/

/-- The configuration `main` builds from the default flag values with the
concurrency flag set to 1. -/
def witnessConfig : Config := buildConfig "GET" 10 1

/-- A 200 response carrying a wildcard ACAO header together with
allow-credentials, plus one non-CORS header. -/
def respW : HTTPResponse :=
  { StatusCode := 200,
    Header := [("Content-Type", ["text/html"]),
               ("Access-Control-Allow-Origin", ["*"]),
               ("Access-Control-Allow-Credentials", ["true"])] }

/-- A network oracle answering with `respW`. -/
def witnessEnv : NetEnv :=
  { doResult := DoResult.success respW, now := "2026-10-11T00:00:00Z" }

/-- A network oracle whose `client.Do` fails at transport level. -/
def failEnv : NetEnv :=
  { doResult := DoResult.failure "connection refused", now := "2026-10-11T00:00:00Z" }

/-- A network oracle answering 404 with no headers. -/
def env404 : NetEnv :=
  { doResult := DoResult.success { StatusCode := 404, Header := [] },
    now := "2026-10-11T00:00:00Z" }

/-- The request testCORS sends for the example target under
`witnessConfig`: fixed User-Agent plus the spoofed Origin. -/
def reqW : Request :=
  { Method := "GET", URLString := "http://example.com",
    Header := [("User-Agent", "CORS-Testing-Tool/1.0"),
               ("Origin", "http://example.com-test.cors.com")] }

/-- A result whose probe succeeded and saw a CORS header. -/
def resOk : CORSTestResult :=
  { URL := "http://a.test/", StatusCode := 200,
    Headers := [("Access-Control-Allow-Origin", "*")], Error := "",
    HasCORS := true, CORSHeaders := ["Access-Control-Allow-Origin"],
    Timestamp := "2026-10-11T00:00:00Z" }

/-- A result whose probe timed out. -/
def resFail : CORSTestResult :=
  { URL := "http://b.test/", StatusCode := 0, Headers := [],
    Error := "Request failed: timeout", HasCORS := false, CORSHeaders := [],
    Timestamp := "2026-10-11T00:00:00Z" }

/-! ## Association-list lemmas -/

theorem mapLookup_mapInsert_self (m : List (String × String)) (k v : String) :
    mapLookup (mapInsert m k v) k = some v := by
  induction m with
  | nil => simp [mapInsert, mapLookup]
  | cons kv₀ rest ih =>
    obtain ⟨k₀, v₀⟩ := kv₀
    by_cases h : k₀ = k
    · simp [mapInsert, h, mapLookup]
    · simp [mapInsert, h, mapLookup, ih]

theorem mapLookup_mapInsert_ne (m : List (String × String)) (k v q : String) (h : q ≠ k) :
    mapLookup (mapInsert m k v) q = mapLookup m q := by
  have h' : ¬ k = q := fun hh => h hh.symm
  induction m with
  | nil => simp [mapInsert, mapLookup, h']
  | cons kv₀ rest ih =>
    obtain ⟨k₀, v₀⟩ := kv₀
    by_cases h₀ : k₀ = k
    · subst h₀
      simp [mapInsert, mapLookup, h']
    · simp only [mapInsert, h₀, if_false, mapLookup]
      split <;> simp [ih]

theorem mapLookup_foldl_insHeader_of_not_mem (hs : List (String × List String))
    (m : List (String × String)) (k : String) (h : k ∉ hs.map Prod.fst) :
    mapLookup (hs.foldl insHeader m) k = mapLookup m k := by
  induction hs generalizing m with
  | nil => rfl
  | cons kv tl ih =>
    simp only [List.map_cons, List.mem_cons, not_or] at h
    rw [List.foldl_cons, ih _ h.2, insHeader, mapLookup_mapInsert_ne _ _ _ _ h.1]

theorem mapLookup_foldl_insHeader_of_mem (hs : List (String × List String))
    (m : List (String × String)) (kv : String × List String)
    (hnd : (hs.map Prod.fst).Nodup) (hmem : kv ∈ hs) :
    mapLookup (hs.foldl insHeader m) kv.1 = some (String.intercalate ", " kv.2) := by
  induction hs generalizing m with
  | nil => cases hmem
  | cons kv₀ tl ih =>
    rw [List.map_cons, List.nodup_cons] at hnd
    rw [List.foldl_cons]
    rcases List.mem_cons.mp hmem with hh | hmem₀
    · subst hh
      rw [mapLookup_foldl_insHeader_of_not_mem _ _ _ hnd.1, insHeader, mapLookup_mapInsert_self]
    · exact ih _ hnd.2 hmem₀

/-! ## Response-header loop lemmas -/

theorem processHeader_spec (r : CORSTestResult) (kv : String × List String) :
    (processHeader r kv).URL = r.URL ∧
    (processHeader r kv).StatusCode = r.StatusCode ∧
    (processHeader r kv).Error = r.Error ∧
    (processHeader r kv).Timestamp = r.Timestamp ∧
    (processHeader r kv).Headers = insHeader r.Headers kv ∧
    (processHeader r kv).HasCORS = (r.HasCORS || isCORSHeader (strToLower kv.1)) ∧
    (processHeader r kv).CORSHeaders
      = r.CORSHeaders ++ (if isCORSHeader (strToLower kv.1) then [kv.1] else []) := by
  cases h : isCORSHeader (strToLower kv.1) <;> simp [processHeader, insHeader, h]

theorem foldl_processHeader_spec (hs : List (String × List String)) (r : CORSTestResult) :
    (hs.foldl processHeader r).URL = r.URL ∧
    (hs.foldl processHeader r).StatusCode = r.StatusCode ∧
    (hs.foldl processHeader r).Error = r.Error ∧
    (hs.foldl processHeader r).Timestamp = r.Timestamp ∧
    (hs.foldl processHeader r).Headers = hs.foldl insHeader r.Headers ∧
    (hs.foldl processHeader r).HasCORS
      = (r.HasCORS || hs.any fun kv => isCORSHeader (strToLower kv.1)) ∧
    (hs.foldl processHeader r).CORSHeaders
      = r.CORSHeaders ++ (hs.filter fun kv => isCORSHeader (strToLower kv.1)).map Prod.fst := by
  induction hs generalizing r with
  | nil => simp
  | cons kv tl ih =>
    obtain ⟨h1, h2, h3, h4, h5, h6, h7⟩ := processHeader_spec r kv
    obtain ⟨g1, g2, g3, g4, g5, g6, g7⟩ := ih (processHeader r kv)
    rw [List.foldl_cons]
    refine ⟨by rw [g1, h1], by rw [g2, h2], by rw [g3, h3], by rw [g4, h4],
      by rw [g5, h5, List.foldl_cons], ?_, ?_⟩
    · rw [g6, h6]
      cases h : isCORSHeader (strToLower kv.1) <;> simp [h, Bool.or_assoc]
    · rw [g7, h7]
      cases h : isCORSHeader (strToLower kv.1) <;> simp [h, List.filter_cons]

/-! ## testCORS branch lemmas -/

theorem testCORSTrace_of_parse_none {u : String} {cfg : Config} {env : NetEnv}
    (h : urlParse u = none) :
    testCORSTrace u cfg env =
      { result := { URL := u, StatusCode := 0, Headers := [],
                    Error := "Error creating request: " ++ ("parse " ++ u ++ ": invalid URL"),
                    HasCORS := false, CORSHeaders := [], Timestamp := env.now },
        sentRequest := none } := by
  simp [testCORSTrace, newRequest, h]

theorem testCORSTrace_of_do_failure {u : String} {cfg : Config} {env : NetEnv}
    {p : ParsedURL} {msg : String}
    (hp : urlParse u = some p) (hd : env.doResult = DoResult.failure msg) :
    (testCORSTrace u cfg env).result =
      { URL := u, StatusCode := 0, Headers := [], Error := "Request failed: " ++ msg,
        HasCORS := false, CORSHeaders := [], Timestamp := env.now } := by
  simp [testCORSTrace, newRequest, hp, hd]

theorem testCORSTrace_of_success {u : String} {cfg : Config} {env : NetEnv}
    {p : ParsedURL} {resp : HTTPResponse}
    (hp : urlParse u = some p) (hd : env.doResult = DoResult.success resp) :
    (testCORSTrace u cfg env).result =
      resp.Header.foldl processHeader
        { URL := u, StatusCode := resp.StatusCode, Headers := [], Error := "",
          HasCORS := false, CORSHeaders := [], Timestamp := env.now } := by
  simp [testCORSTrace, newRequest, hp, hd]

theorem testCORSTrace_sentRequest_origin {u : String} {cfg : Config} {env : NetEnv}
    {req : Request} (h : (testCORSTrace u cfg env).sentRequest = some req) :
    ∃ p, urlParse u = some p ∧
      mapLookup req.Header "Origin"
        = some ((p.scheme ++ "://" ++ p.host) ++ "-test.cors.com") := by
  cases hp : urlParse u with
  | none =>
    rw [testCORSTrace_of_parse_none hp] at h
    cases h
  | some p =>
    refine ⟨p, rfl, ?_⟩
    cases hd : env.doResult with
    | failure msg =>
      simp only [testCORSTrace, newRequest, hp, hd] at h
      cases h
      exact mapLookup_mapInsert_self _ _ _
    | success resp =>
      simp only [testCORSTrace, newRequest, hp, hd] at h
      cases h
      exact mapLookup_mapInsert_self _ _ _

/-! ## Worker-pool lemmas -/

theorem countActive_cons (c : WPhase) (tl : List WPhase) :
    countActive (c :: tl) = (if isActive c then 1 else 0) + countActive tl := by
  cases h : isActive c <;> simp [countActive, List.filter_cons, h, Nat.add_comm]

theorem countActive_replicate_waiting (n : Nat) :
    countActive (List.replicate n WPhase.waiting) = 0 := by
  induction n with
  | zero => rfl
  | succ m ih => simp [List.replicate, countActive_cons, isActive, ih]

theorem countActive_set_active {ps : List WPhase} {i : Nat}
    (h : ps[i]? = some WPhase.waiting) :
    countActive (ps.set i WPhase.active) = countActive ps + 1 := by
  induction ps generalizing i with
  | nil => simp at h
  | cons c tl ih =>
    cases i with
    | zero =>
      simp only [List.getElem?_cons_zero, Option.some_inj] at h
      subst h
      simp [List.set, countActive_cons, isActive, Nat.add_comm]
    | succ j =>
      have hj : tl[j]? = some WPhase.waiting := by simpa using h
      simp only [List.set, countActive_cons, ih hj]
      omega

theorem countActive_set_finished {ps : List WPhase} {i : Nat}
    (h : ps[i]? = some WPhase.active) :
    countActive (ps.set i WPhase.finished) + 1 = countActive ps := by
  induction ps generalizing i with
  | nil => simp at h
  | cons c tl ih =>
    cases i with
    | zero =>
      simp only [List.getElem?_cons_zero, Option.some_inj] at h
      subst h
      simp [List.set, countActive_cons, isActive, Nat.add_comm]
    | succ j =>
      have hj : tl[j]? = some WPhase.active := by simpa using h
      have hrec := ih hj
      simp only [List.set, countActive_cons]
      omega

theorem one_le_countActive {ps : List WPhase} {i : Nat}
    (h : ps[i]? = some WPhase.active) : 1 ≤ countActive ps := by
  induction ps generalizing i with
  | nil => simp at h
  | cons c tl ih =>
    cases i with
    | zero =>
      simp only [List.getElem?_cons_zero, Option.some_inj] at h
      subst h
      simp [countActive_cons, isActive]
    | succ j =>
      have hj : tl[j]? = some WPhase.active := by simpa using h
      have := ih hj
      rw [countActive_cons]
      omega

theorem two_le_countActive {ps : List WPhase} {i j : Nat} (hij : i ≠ j)
    (hi : ps[i]? = some WPhase.active) (hj : ps[j]? = some WPhase.active) :
    2 ≤ countActive ps := by
  induction ps generalizing i j with
  | nil => simp at hi
  | cons c tl ih =>
    cases i with
    | zero =>
      cases j with
      | zero => exact absurd rfl hij
      | succ j₀ =>
        simp only [List.getElem?_cons_zero, Option.some_inj] at hi
        subst hi
        have h₁ : tl[j₀]? = some WPhase.active := by simpa using hj
        have := one_le_countActive h₁
        have hc : (if isActive WPhase.active then 1 else 0) = 1 := rfl
        rw [countActive_cons, hc]
        omega
    | succ i₀ =>
      cases j with
      | zero =>
        simp only [List.getElem?_cons_zero, Option.some_inj] at hj
        subst hj
        have h₁ : tl[i₀]? = some WPhase.active := by simpa using hi
        have := one_le_countActive h₁
        have hc : (if isActive WPhase.active then 1 else 0) = 1 := rfl
        rw [countActive_cons, hc]
        omega
      | succ j₀ =>
        have h₁ : tl[i₀]? = some WPhase.active := by simpa using hi
        have h₂ : tl[j₀]? = some WPhase.active := by simpa using hj
        have := ih (fun hh => hij (by simpa using congrArg Nat.succ hh)) h₁ h₂
        rw [countActive_cons]
        omega

/-- The inductive invariant of the pool: the phase list keeps its length,
the semaphore is never over capacity, the append log has no duplicates, and
the log holds exactly the finished workers. -/
def BulkInv (cap n : Nat) (s : BulkState) : Prop :=
  s.phases.length = n ∧ countActive s.phases ≤ cap ∧ s.log.Nodup ∧
    ∀ i : Nat, i ∈ s.log ↔ s.phases[i]? = some WPhase.finished

theorem bulkInv_of_reachable {cap n : Nat} {s : BulkState}
    (h : BulkReachable cap n s) : BulkInv cap n s := by
  induction h with
  | init =>
    refine ⟨by simp [bulkInit], ?_, by simp [bulkInit], ?_⟩
    · rw [bulkInit, countActive_replicate_waiting]
      exact Nat.zero_le _
    · intro i
      simp only [bulkInit, List.getElem?_replicate]
      constructor
      · intro hmem
        cases hmem
      · intro hh
        split at hh <;> simp_all
  | step hr hstep ih =>
    rename_i s t
    obtain ⟨hlen, hcap, hnodup, hiff⟩ := ih
    cases hstep with
    | acquire i hw hlt =>
      refine ⟨by simp [hlen], ?_, hnodup, ?_⟩
      · rw [countActive_set_active hw]
        omega
      · intro j
        show j ∈ s.log ↔ (s.phases.set i WPhase.active)[j]? = some WPhase.finished
        by_cases hj : i = j
        · subst hj
          have hilt : i < s.phases.length := (List.getElem?_eq_some.mp hw).1
          have hset : (s.phases.set i WPhase.active)[i]? = some WPhase.active := by
            rw [List.getElem?_set_self] <;> simp [hilt]
          rw [hset]
          have hold := hiff i
          rw [hw] at hold
          constructor
          · intro hmem
            exact absurd (hold.mp hmem) (by simp)
          · intro hh
            simp at hh
        · have hset : (s.phases.set i WPhase.active)[j]? = s.phases[j]? :=
            List.getElem?_set_ne hj
          simp only [hset]
          exact hiff j
    | finish i ha =>
      have hnotin : i ∉ s.log := by
        rw [hiff i, ha]
        simp
      have hilt : i < s.phases.length := (List.getElem?_eq_some.mp ha).1
      refine ⟨by simp [hlen], ?_, ?_, ?_⟩
      · show countActive (s.phases.set i WPhase.finished) ≤ cap
        have := countActive_set_finished ha
        omega
      · show (s.log ++ [i]).Nodup
        simp [List.nodup_append, hnodup, List.disjoint_singleton]
        exact hnotin
      · intro j
        show j ∈ s.log ++ [i] ↔ (s.phases.set i WPhase.finished)[j]? = some WPhase.finished
        by_cases hj : i = j
        · subst hj
          have hset : (s.phases.set i WPhase.finished)[i]? = some WPhase.finished := by
            rw [List.getElem?_set_self] <;> simp [hilt]
          simp [hset]
        · have hset : (s.phases.set i WPhase.finished)[j]? = s.phases[j]? :=
            List.getElem?_set_ne hj
          simp only [List.mem_append, hset, List.mem_singleton]
          rw [← hiff j]
          constructor
          · rintro (hh | hh)
            · exact hh
            · exact absurd hh.symm hj
          · intro hh
            exact Or.inl hh

theorem log_complete_of_terminal {cap n : Nat} {s : BulkState}
    (hr : BulkReachable cap n s) (ht : Terminal n s) :
    s.log.length = n ∧ s.log.Nodup ∧ ∀ i, i < n ↔ i ∈ s.log := by
  obtain ⟨hlen, hcap, hnodup, hiff⟩ := bulkInv_of_reachable hr
  have ht' : s.phases = List.replicate n WPhase.finished := ht
  have hmem : ∀ i, i ∈ s.log ↔ i < n := by
    intro i
    rw [hiff i, ht']
    simp only [List.getElem?_replicate]
    by_cases h : i < n <;> simp [h]
  have hfin : s.log.toFinset = Finset.range n := by
    ext i
    simp [List.mem_toFinset, Finset.mem_range, hmem i]
  have hcard := List.toFinset_card_of_nodup hnodup
  rw [hfin, Finset.card_range] at hcard
  exact ⟨hcard.symm, hnodup, fun i => (hmem i).symm⟩

theorem any_eq_true_iff_filter_map_ne (l : List (String × List String))
    (pr : String × List String → Bool) :
    l.any pr = true ↔ (l.filter pr).map Prod.fst ≠ [] := by
  induction l with
  | nil => simp
  | cons kv tl ih =>
    cases h : pr kv <;> simp [List.any_cons, List.filter_cons, h, ih]

theorem summaryStep_foldl (rs : List CORSTestResult) (a b : Nat) :
    rs.foldl summaryStep (a, b)
      = (a + (rs.filter fun r => r.Error == "").length,
         b + (rs.filter fun r => r.HasCORS).length) := by
  induction rs generalizing a b with
  | nil => simp
  | cons r tl ih =>
    rw [List.foldl_cons]
    show tl.foldl summaryStep
        ((if r.Error == "" then a + 1 else a), (if r.HasCORS then b + 1 else b)) = _
    rw [ih]
    cases h1 : r.Error == "" <;> cases h2 : r.HasCORS <;>
      simp [List.filter_cons, h1, h2, Prod.ext_iff] <;> omega

theorem isValidURL_iff (u : String) :
    isValidURL u = true ↔ ∃ p, urlParse u = some p ∧ p.scheme ≠ "" ∧ p.host ≠ "" := by
  unfold isValidURL
  cases h : urlParse u with
  | none => simp
  | some p => simp [bne_iff_ne]

/-! ## The claims -/

/-- C1: for every list of file lines whose collected valid URLs are
non-empty and every concurrency limit (the one carried by the config), in
any reachable state where testBulkCORS returns (all workers finished, the
condition of `wg.Wait`), the result list has exactly one entry per
collected URL: its length equals the number of valid targets, the append
log has no duplicates (no target appended twice), and every target index
was appended (no result dropped) — so the return happens only after every
spawned worker has appended its result. -/
theorem testBulkCORS_terminal_results
    (lines : List String) (config : Config) (envs : Nat → NetEnv) (s : BulkState)
    (hne : collectURLs lines ≠ [])
    (hr : BulkReachable config.Concurrency (collectURLs lines).length s)
    (ht : Terminal (collectURLs lines).length s) :
    (bulkResults (bulkProber lines config envs) s).length = (collectURLs lines).length ∧
    s.log.Nodup ∧
    ∀ i, i < (collectURLs lines).length ↔ i ∈ s.log := by
  obtain ⟨hlen, hnd, hmem⟩ := log_complete_of_terminal hr ht
  exact ⟨by simp [bulkResults, hlen], hnd, hmem⟩

theorem testBulkCORS_terminal_results_witness :
    (bulkResults (bulkProber ["http://example.com"] witnessConfig fun _ => witnessEnv)
        { phases := [WPhase.finished], log := [0] }).length
      = (collectURLs ["http://example.com"]).length ∧
    ([0] : List Nat).Nodup ∧
    ∀ i, i < (collectURLs ["http://example.com"]).length ↔ i ∈ ([0] : List Nat) := by
  have h0 : BulkReachable 1 1 (bulkInit 1) := BulkReachable.init
  have h1 : BulkReachable 1 1 { phases := [WPhase.active], log := [] } :=
    BulkReachable.step h0 (BulkStep.acquire (bulkInit 1) 0 (by decide) (by decide))
  have h2 : BulkReachable 1 1 { phases := [WPhase.finished], log := [0] } :=
    BulkReachable.step h1
      (BulkStep.finish { phases := [WPhase.active], log := [] } 0 (by decide))
  exact testBulkCORS_terminal_results ["http://example.com"] witnessConfig
    (fun _ => witnessEnv) { phases := [WPhase.finished], log := [0] }
    (by decide) h2 (by unfold Terminal; decide)

/-- C5: in every reachable state of the bulk scan, at most
`cap = ScanConfig.Concurrency` workers hold a semaphore slot (the phase in
which a worker performs its network call), and with a concurrency limit of
1 no two distinct workers are simultaneously slot-holding — their network
calls never overlap.  Slot release on completion is unconditional: it is
part of the single `finish` transition. -/
theorem bulk_semaphore_bound {cap n : Nat} {s : BulkState}
    (hr : BulkReachable cap n s) :
    countActive s.phases ≤ cap ∧
    (cap = 1 → ∀ i j : Nat, s.phases[i]? = some WPhase.active →
      s.phases[j]? = some WPhase.active → i = j) := by
  obtain ⟨_, hcap, _, _⟩ := bulkInv_of_reachable hr
  refine ⟨hcap, ?_⟩
  intro hc i j hi hj
  by_contra hij
  have := two_le_countActive hij hi hj
  omega

theorem bulk_semaphore_bound_witness :
    countActive [WPhase.active] ≤ 1 ∧
    ((1 : Nat) = 1 → ∀ i j : Nat, ([WPhase.active] : List WPhase)[i]? = some WPhase.active →
      ([WPhase.active] : List WPhase)[j]? = some WPhase.active → i = j) := by
  have h0 : BulkReachable 1 1 (bulkInit 1) := BulkReachable.init
  have h1 : BulkReachable 1 1 { phases := [WPhase.active], log := [] } :=
    BulkReachable.step h0 (BulkStep.acquire (bulkInit 1) 0 (by decide) (by decide))
  exact bulk_semaphore_bound h1

/-- C10: the concurrency flag is copied into the config unvalidated, and
with `Concurrency = 0` the semaphore channel has zero capacity: from the
initial state of any pool with at least one worker no transition is
enabled (no slot can ever be acquired, so no worker can ever finish), the
only reachable state is the initial one, and the terminal condition of
`wg.Wait` never holds — testBulkCORS never returns. -/
theorem bulk_zero_concurrency_stuck (n : Nat) (hn : 0 < n) :
    (∀ m t c, (buildConfig m t c).Concurrency = c) ∧
    (∀ s, BulkReachable 0 n s → s = bulkInit n) ∧
    ¬ Terminal n (bulkInit n) ∧
    (∀ t, ¬ BulkStep 0 (bulkInit n) t) := by
  have hnostep : ∀ t, ¬ BulkStep 0 (bulkInit n) t := by
    intro t hstep
    cases hstep with
    | acquire i hw hlt => omega
    | finish i ha =>
      have : (List.replicate n WPhase.waiting)[i]? = some WPhase.active := ha
      rw [List.getElem?_replicate] at this
      split at this <;> simp_all
  refine ⟨fun m t c => rfl, ?_, ?_, hnostep⟩
  · intro s hr
    induction hr with
    | init => rfl
    | step hr hstep ih =>
      rw [ih] at hstep
      exact absurd hstep (hnostep _)
  · intro ht
    have ht' : List.replicate n WPhase.waiting = List.replicate n WPhase.finished := ht
    have := congrArg (fun l => l[0]?) ht'
    simp only [List.getElem?_replicate] at this
    split at this <;> simp_all

theorem bulk_zero_concurrency_stuck_witness :
    (∀ m t c, (buildConfig m t c).Concurrency = c) ∧
    (∀ s, BulkReachable 0 1 s → s = bulkInit 1) ∧
    ¬ Terminal 1 (bulkInit 1) ∧
    (∀ t, ¬ BulkStep 0 (bulkInit 1) t) :=
  bulk_zero_concurrency_stuck 1 (by decide)

/-- C2 counterexample: a non-2xx response is not a failure path in the
code — testCORS on a 404 response leaves the error field empty and records
the 404 status code, against the claim that a non-2xx status populates the
error field and is returned with zero status code. -/
theorem testCORS_non2xx_not_failure :
    (testCORS "http://example.com" (buildConfig "GET" 10 5) env404).Error = "" ∧
    (testCORS "http://example.com" (buildConfig "GET" 10 5) env404).StatusCode = 404 := by
  constructor <;> decide

/-- C2 (amended): testCORS returns exactly one result and absorbs every
failure it encounters: a target whose URL does not parse gets an error
stating the request could not be constructed, zero status, no headers, and
never reaches the network call; a transport-level `client.Do` failure
(connection failure, timeout) gets an error and is returned with zero
status and no headers; but a non-2xx response is not a failure — any
received response is processed with an empty error field and its actual
status code. -/
theorem testCORS_failure_paths (u : String) (cfg : Config) (env : NetEnv) :
    (urlParse u = none →
      (testCORS u cfg env).Error
          = "Error creating request: " ++ ("parse " ++ u ++ ": invalid URL") ∧
      (testCORS u cfg env).StatusCode = 0 ∧
      (testCORS u cfg env).Headers = [] ∧
      (testCORSTrace u cfg env).sentRequest = none) ∧
    (∀ p msg, urlParse u = some p → env.doResult = DoResult.failure msg →
      (testCORS u cfg env).Error = "Request failed: " ++ msg ∧
      (testCORS u cfg env).StatusCode = 0 ∧
      (testCORS u cfg env).Headers = []) ∧
    (∀ p resp, urlParse u = some p → env.doResult = DoResult.success resp →
      (testCORS u cfg env).Error = "" ∧
      (testCORS u cfg env).StatusCode = resp.StatusCode) := by
  refine ⟨?_, ?_, ?_⟩
  · intro h
    rw [testCORS, testCORSTrace_of_parse_none h]
    exact ⟨rfl, rfl, rfl, rfl⟩
  · intro p msg hp hd
    rw [testCORS, testCORSTrace_of_do_failure hp hd]
    exact ⟨rfl, rfl, rfl⟩
  · intro p resp hp hd
    rw [testCORS, testCORSTrace_of_success hp hd]
    obtain ⟨_, g2, g3, _, _, _, _⟩ := foldl_processHeader_spec resp.Header
      { URL := u, StatusCode := resp.StatusCode, Headers := [], Error := "",
        HasCORS := false, CORSHeaders := [], Timestamp := env.now }
    exact ⟨g3, g2⟩

theorem testCORS_failure_paths_witness :
    (testCORS ":badurl" witnessConfig failEnv).Error
        = "Error creating request: " ++ ("parse " ++ ":badurl" ++ ": invalid URL") ∧
    (testCORS "http://example.com" witnessConfig failEnv).Error
        = "Request failed: " ++ "connection refused" ∧
    (testCORS "http://example.com" witnessConfig witnessEnv).Error = "" := by
  refine ⟨((testCORS_failure_paths ":badurl" witnessConfig failEnv).1 (by decide)).1, ?_, ?_⟩
  · exact ((testCORS_failure_paths "http://example.com" witnessConfig failEnv).2.1
      { scheme := "http", host := "example.com" } "connection refused" (by decide) rfl).1
  · exact ((testCORS_failure_paths "http://example.com" witnessConfig witnessEnv).2.2
      { scheme := "http", host := "example.com" } respW (by decide) rfl).1

/-- C3: for every response received (request constructed and `client.Do`
returned a response), every response header is stored in the result map
under its original name with its values joined by a comma and a space;
the CORS-header list holds exactly the original (non-lowercased) names of
the headers whose lowercased name contains one of the six fixed
`access-control-*` substrings; the has-CORS flag is true exactly when some
header name matches; and a response with no matching header yields
has-CORS false and an empty CORS-header list. -/
theorem testCORS_response_header_processing
    (u : String) (cfg : Config) (env : NetEnv) (p : ParsedURL) (resp : HTTPResponse)
    (hp : urlParse u = some p) (hd : env.doResult = DoResult.success resp)
    (hnd : (resp.Header.map Prod.fst).Nodup) :
    (∀ kv ∈ resp.Header,
        mapLookup (testCORS u cfg env).Headers kv.1 = some (String.intercalate ", " kv.2)) ∧
    (testCORS u cfg env).CORSHeaders
        = (resp.Header.filter fun kv => isCORSHeader (strToLower kv.1)).map Prod.fst ∧
    ((testCORS u cfg env).HasCORS = true ↔
        resp.Header.any (fun kv => isCORSHeader (strToLower kv.1)) = true) ∧
    ((∀ kv ∈ resp.Header, isCORSHeader (strToLower kv.1) = false) →
        (testCORS u cfg env).HasCORS = false ∧ (testCORS u cfg env).CORSHeaders = []) := by
  rw [testCORS, testCORSTrace_of_success hp hd]
  obtain ⟨g1, g2, g3, g4, g5, g6, g7⟩ := foldl_processHeader_spec resp.Header
    { URL := u, StatusCode := resp.StatusCode, Headers := [], Error := "",
      HasCORS := false, CORSHeaders := [], Timestamp := env.now }
  have hfilter : (∀ kv ∈ resp.Header, isCORSHeader (strToLower kv.1) = false) →
      resp.Header.filter (fun kv => isCORSHeader (strToLower kv.1)) = [] := by
    intro hnone
    rw [List.filter_eq_nil_iff]
    intro kv hkv
    simp [hnone kv hkv]
  refine ⟨?_, ?_, ?_, ?_⟩
  · intro kv hkv
    rw [g5]
    exact mapLookup_foldl_insHeader_of_mem _ _ _ hnd hkv
  · rw [g7]
    simp
  · rw [g6]
    simp
  · intro hnone
    refine ⟨?_, ?_⟩
    · rw [g6]
      simp only [Bool.false_or]
      rw [List.any_eq_false]
      intro kv hkv
      simp [hnone kv hkv]
    · rw [g7, hfilter hnone]
      simp

theorem testCORS_response_header_processing_witness :
    mapLookup (testCORS "http://example.com" witnessConfig witnessEnv).Headers
        "Access-Control-Allow-Origin" = some "*" ∧
    (testCORS "http://example.com" witnessConfig witnessEnv).CORSHeaders
        = ["Access-Control-Allow-Origin", "Access-Control-Allow-Credentials"] ∧
    (testCORS "http://example.com" witnessConfig witnessEnv).HasCORS = true := by
  have h := testCORS_response_header_processing "http://example.com" witnessConfig
    witnessEnv { scheme := "http", host := "example.com" } respW (by decide) rfl (by decide)
  refine ⟨?_, ?_, h.2.2.1.mpr (by decide)⟩
  · have hlook := h.1 ("Access-Control-Allow-Origin", ["*"]) (by decide)
    have he : String.intercalate ", " ["*"] = "*" := by decide
    rw [he] at hlook
    exact hlook
  · rw [h.2.1]
    decide

/-- C4: every request testCORS hands to `client.Do` carries an Origin
header equal to the target URL scheme and host with the fixed sentinel
suffix appended, and that value never equals the real origin
`scheme://host` of the target itself. -/
theorem testCORS_spoofed_origin (u : String) (cfg : Config) (env : NetEnv) (req : Request)
    (h : (testCORSTrace u cfg env).sentRequest = some req) :
    ∃ p, urlParse u = some p ∧
      mapLookup req.Header "Origin"
        = some ((p.scheme ++ "://" ++ p.host) ++ "-test.cors.com") ∧
      mapLookup req.Header "Origin" ≠ some (p.scheme ++ "://" ++ p.host) := by
  obtain ⟨p, hp, hlook⟩ := testCORSTrace_sentRequest_origin h
  refine ⟨p, hp, hlook, ?_⟩
  rw [hlook]
  intro hcontra
  have heq := Option.some.inj hcontra
  have hlenq := congrArg String.length heq
  rw [String.length_append] at hlenq
  have hsuffix : ("-test.cors.com" : String).length = 14 := by decide
  omega

theorem testCORS_spoofed_origin_witness :
    ∃ p, urlParse "http://example.com" = some p ∧
      mapLookup reqW.Header "Origin"
        = some ((p.scheme ++ "://" ++ p.host) ++ "-test.cors.com") ∧
      mapLookup reqW.Header "Origin" ≠ some (p.scheme ++ "://" ++ p.host) :=
  testCORS_spoofed_origin "http://example.com" witnessConfig witnessEnv reqW (by decide)

/-- C6: when the collected URL list is empty (blank or invalid lines only,
or an empty file), the bulk run dies with the fatal configuration error
before scheduling any target and without writing a report, and the fatal
error occurs in no other situation. -/
theorem bulkRun_zero_valid_urls_fatal (lines : List String) :
    ((bulkRunControl lines).fatalError = some "No valid URLs found in file" ↔
      collectURLs lines = []) ∧
    (collectURLs lines = [] →
      (bulkRunControl lines).scheduled = [] ∧
      (bulkRunControl lines).reportWritten = false) := by
  by_cases h : collectURLs lines = []
  · simp [bulkRunControl, h]
  · have hne : (collectURLs lines).isEmpty = false := by
      rw [Bool.eq_false_iff]
      intro hh
      exact h (List.isEmpty_iff.mp hh)
    simp [bulkRunControl, hne, h]

theorem bulkRun_zero_valid_urls_fatal_witness :
    (bulkRunControl ["", "   ", "notaurl"]).fatalError = some "No valid URLs found in file" ∧
    (bulkRunControl ["", "   ", "notaurl"]).scheduled = [] ∧
    (bulkRunControl ["", "   ", "notaurl"]).reportWritten = false := by
  have h := bulkRun_zero_valid_urls_fatal ["", "   ", "notaurl"]
  exact ⟨h.1.mpr (by decide), (h.2 (by decide)).1, (h.2 (by decide)).2⟩

/-- C7: the console summary reports total equal to the number of results,
successful equal to the number of results with an empty error field,
with-CORS equal to the number of results with the flag set; on an empty
result list the success rate is the literal 0 and the division branch is
not taken; and a failed result raises the total by one while leaving the
successful count unchanged. -/
theorem printSummary_spec (rs : List CORSTestResult) :
    (printSummary rs).total = rs.length ∧
    (printSummary rs).successful = (rs.filter fun r => r.Error == "").length ∧
    (printSummary rs).withCORS = (rs.filter fun r => r.HasCORS).length ∧
    (rs.length = 0 →
      (printSummary rs).successRate = 0 ∧ (printSummary rs).divisionPerformed = false) ∧
    (∀ r, r.Error ≠ "" →
      (printSummary (r :: rs)).total = (printSummary rs).total + 1 ∧
      (printSummary (r :: rs)).successful = (printSummary rs).successful) := by
  have hfields : ∀ rs' : List CORSTestResult,
      (printSummary rs').total = rs'.length ∧
      (printSummary rs').successful = (rs'.filter fun r => r.Error == "").length ∧
      (printSummary rs').withCORS = (rs'.filter fun r => r.HasCORS).length := by
    intro rs'
    unfold printSummary
    rw [summaryStep_foldl]
    by_cases hpos : rs'.length > 0 <;> simp [hpos]
  obtain ⟨h1, h2, h3⟩ := hfields rs
  refine ⟨h1, h2, h3, ?_, ?_⟩
  · intro h0
    have hnil : rs = [] := List.length_eq_zero.mp h0
    subst hnil
    constructor <;> rfl
  · intro r hr
    obtain ⟨k1, k2, _⟩ := hfields (r :: rs)
    have hbeq : (r.Error == "") = false := by
      rw [beq_eq_false_iff_ne]
      exact hr
    refine ⟨?_, ?_⟩
    · rw [k1, h1, List.length_cons]
    · rw [k2, h2, List.filter_cons, hbeq]
      simp

theorem printSummary_spec_witness :
    (printSummary [resFail, resOk]).total = (printSummary [resOk]).total + 1 ∧
    (printSummary [resFail, resOk]).successful = (printSummary [resOk]).successful ∧
    (printSummary ([] : List CORSTestResult)).successRate = 0 ∧
    (printSummary ([] : List CORSTestResult)).divisionPerformed = false := by
  have h := (printSummary_spec [resOk]).2.2.2.2 resFail (by decide)
  have h0 := (printSummary_spec ([] : List CORSTestResult)).2.2.2.1 rfl
  exact ⟨h.1, h.2, h0.1, h0.2⟩

/-- C8: a line of the input file is scheduled exactly when, after trimming
whitespace, it is non-empty and parses as a URL with a non-empty scheme
and a non-empty host; and what gets scheduled is precisely the trimmed
line.  (`collectURLs` is the per-line filter `schedLine` mapped over the
file lines.) -/
theorem schedLine_spec (line : String) :
    ((schedLine line).isSome ↔
      (trimSpace line ≠ "" ∧
        ∃ p, urlParse (trimSpace line) = some p ∧ p.scheme ≠ "" ∧ p.host ≠ "")) ∧
    (∀ u, schedLine line = some u → u = trimSpace line) ∧
    collectURLs [line] = (schedLine line).toList := by
  refine ⟨?_, ?_, ?_⟩
  · have hcond : (schedLine line).isSome
        ↔ (trimSpace line != "" && isValidURL (trimSpace line)) = true := by
      unfold schedLine
      by_cases hc : (trimSpace line != "" && isValidURL (trimSpace line)) = true <;>
        simp [hc]
    rw [hcond, Bool.and_eq_true, bne_iff_ne, isValidURL_iff]
  · intro u hu
    unfold schedLine at hu
    by_cases hc : (trimSpace line != "" && isValidURL (trimSpace line)) = true
    · simp only [hc, if_true] at hu
      exact (Option.some.inj hu).symm
    · simp [hc] at hu
  · cases h : schedLine line <;> simp [collectURLs, h]

theorem schedLine_spec_witness :
    (schedLine "  http://example.com  ").isSome ∧
    "http://example.com" = trimSpace "  http://example.com  " := by
  have h := schedLine_spec "  http://example.com  "
  exact ⟨h.1.mpr ⟨by decide, { scheme := "http", host := "example.com" },
    by decide, by decide, by decide⟩, h.2.1 "http://example.com" (by decide)⟩

/-- C9: for every target, config and network outcome, the has-CORS flag of
the returned result is true exactly when the CORS-header list is
non-empty; in particular every failure-path result and every result with
the flag false carries the empty list (the list and the header map are
initialised up front and never absent). -/
theorem testCORS_hasCORS_iff (u : String) (cfg : Config) (env : NetEnv) :
    (testCORS u cfg env).HasCORS = true ↔ (testCORS u cfg env).CORSHeaders ≠ [] := by
  cases hp : urlParse u with
  | none =>
    rw [testCORS, testCORSTrace_of_parse_none hp]
    simp
  | some p =>
    cases hd : env.doResult with
    | failure msg =>
      rw [testCORS, testCORSTrace_of_do_failure hp hd]
      simp
    | success resp =>
      rw [testCORS, testCORSTrace_of_success hp hd]
      obtain ⟨_, _, _, _, _, g6, g7⟩ := foldl_processHeader_spec resp.Header
        { URL := u, StatusCode := resp.StatusCode, Headers := [], Error := "",
          HasCORS := false, CORSHeaders := [], Timestamp := env.now }
      rw [g6, g7]
      simp only [Bool.false_or, List.nil_append]
      exact any_eq_true_iff_filter_map_ne resp.Header _
